import Mathlib

/-!
Shallow embedding of `src/Flashcards.py` (the flashcard store, quiz engine,
stats reporter and line-oriented persistence codec) and proofs about it.

Python `str` values are modelled as `List Char`; Python `dict` (which is
insertion-ordered) is modelled as an association list where updating an
existing key keeps its position and a fresh key is appended at the end.
Machine-level exceptions that the program does not catch (`KeyError`,
`IndexError`, `ValueError`) are modelled with `Option`/dedicated crash
constructors, so that "the process terminates abnormally" is observable.
-/

deriving instance DecidableEq for Except

namespace Flashcards

/-- Text is modelled as a list of characters (Python `str`). -/
abbrev Str := List Char

/-- Lookup in a Python `dict` modelled as an insertion-ordered association list
(`d[k]` / `k in d`): the first entry with the given key, if any. -/
def dictGet {α : Type} (k : Str) : List (Str × α) → Option α
  | [] => none
  | p :: rest => if p.1 = k then some p.2 else dictGet k rest

/-- Python `d[k] = v`: update the value in place when the key exists
(keeping its position, as Python dicts do), append a new entry otherwise. -/
def dictSet {α : Type} (k : Str) (v : α) : List (Str × α) → List (Str × α)
  | [] => [(k, v)]
  | p :: rest => if p.1 = k then (k, v) :: rest else p :: dictSet k v rest

/-- Python `d.pop(k)`: remove the entry with key `k`. -/
def dictPop {α : Type} (k : Str) : List (Str × α) → List (Str × α)
  | [] => []
  | p :: rest => if p.1 = k then dictPop k rest else p :: dictPop k rest

/-- Python `d.keys()` in iteration order. -/
def keysOf {α : Type} (l : List (Str × α)) : List Str := l.map Prod.fst

/-- Python `d.values()` in iteration order. -/
def valuesOf {α : Type} (l : List (Str × α)) : List α := l.map Prod.snd

/-- Python `d[k] += 1` on the error counter; `none` models the uncaught
`KeyError` raised when the key is absent. -/
def incr (k : Str) : List (Str × Int) → Option (List (Str × Int))
  | [] => none
  | p :: rest => if p.1 = k then some ((p.1, p.2 + 1) :: rest)
      else (incr k rest).map (fun l => p :: l)

/-- Python `next(c for c, defn in d.items() if defn == v)`: the first key whose
value equals `v` in iteration order (`none` models `StopIteration`). -/
def firstKeyWithValue (v : Str) : List (Str × Str) → Option Str
  | [] => none
  | p :: rest => if p.2 = v then some p.1 else firstKeyWithValue v rest

/-- The state of a `FlashcardManager`: the two parallel mappings
`self.cards : dict[str, str]` and `self.error_counter : dict[str, int]`. -/
structure State where
  cards : List (Str × Str)
  error_counter : List (Str × Int)
deriving DecidableEq

/-- The state built by `FlashcardManager.__init__`: both dicts empty. -/
def initState : State := ⟨[], []⟩

/-- Typed failures of the single-attempt core of `add_card` (the interactive
re-prompt loops around it are presentation glue). -/
inductive AddErr
  | dupTerm
  | dupDef
deriving DecidableEq

/-- Single-attempt core of `FlashcardManager.add_card`: reject a term already
in `self.cards`, then reject a definition already in `self.cards.values()`,
otherwise store the pair and initialize the error counter to `0`. -/
def add_card (s : State) (term defn : Str) : Except AddErr State :=
  if (dictGet term s.cards).isSome then .error .dupTerm
  else if defn ∈ valuesOf s.cards then .error .dupDef
  else .ok ⟨dictSet term defn s.cards, dictSet term 0 s.error_counter⟩

/-- Folds a sequence of `add_card` calls from a starting state; `none` as soon
as one attempt fails (used to talk about sequences of successful adds). -/
def addAll : State → List (Str × Str) → Option State
  | s, [] => some s
  | s, (t, d) :: rest =>
    match add_card s t d with
    | .ok s' => addAll s' rest
    | .error _ => none

/-- `FlashcardManager.remove_card`: when the term is present, `self.cards`
loses the entry (the code pops only `self.cards`, leaving `self.error_counter`
untouched) and the Bool is `true`; otherwise the state is unchanged and the
Bool is `false` ("there is no such card"). -/
def remove_card (s : State) (term : Str) : State × Bool :=
  if (dictGet term s.cards).isSome
  then (⟨dictPop term s.cards, s.error_counter⟩, true)
  else (s, false)

/-- `FlashcardManager.reset_stats`: every error count is set to `0`, keys and
their order unchanged. -/
def reset_stats (s : State) : State :=
  ⟨s.cards, s.error_counter.map (fun p => (p.1, 0))⟩

/-- Whitespace characters removed by Python `str.strip()` (the ASCII ones;
the terms, definitions and counts of this program are ASCII lines). -/
def isPySpace (c : Char) : Bool :=
  c = ' ' || c = '\t' || c = '\n' || c = '\r' || c = '\x0b' || c = '\x0c'

/-- Drop leading whitespace. -/
def stripLeft (s : Str) : Str := s.dropWhile isPySpace

/-- Python `line.strip()`: drop leading and trailing whitespace. -/
def strip (s : Str) : Str := (stripLeft ((stripLeft s).reverse)).reverse

/-- Decimal digit predicate used by the model of Python `int(...)`. -/
def isDigitC (c : Char) : Bool := '0' ≤ c && c ≤ '9'

/-- Value of a big-endian string of decimal digits. -/
def digitsVal (s : Str) : Nat := s.foldl (fun acc c => acc * 10 + (c.toNat - 48)) 0

/-- Model of Python `int(s)` on an already-stripped string: an optional sign
followed by at least one decimal digit; `none` models the uncaught
`ValueError` on anything else. -/
def pyInt (s : Str) : Option Int :=
  match s with
  | [] => none
  | c :: rest =>
    if c = '+' then
      if rest ≠ [] ∧ rest.all isDigitC then some (digitsVal rest) else none
    else if c = '-' then
      if rest ≠ [] ∧ rest.all isDigitC then some (-(digitsVal rest : Int)) else none
    else
      if (c :: rest).all isDigitC then some (digitsVal (c :: rest)) else none

/-- Character of a decimal digit value. -/
def digitChar (d : Nat) : Char := Char.ofNat (48 + d)

/-- Little-endian decimal digits of `n`, with explicit fuel so that the
recursion is structural (any `fuel ≥ n` gives `Nat.digits 10 n`). -/
def toDigitsRev : Nat → Nat → List Nat
  | 0, _ => []
  | fuel + 1, n => if n = 0 then [] else (n % 10) :: toDigitsRev fuel (n / 10)

/-- Model of Python `str(n)` for a natural number: its decimal digits. -/
def natToStr (n : Nat) : Str :=
  if n = 0 then ['0'] else ((toDigitsRev n n).map digitChar).reverse

/-- Model of Python `str(n)` for an integer. -/
def intToStr (n : Int) : Str :=
  if n < 0 then '-' :: natToStr n.natAbs else natToStr n.toNat

/-- Result of the record loop inside `FlashcardManager.import_card`, carrying
the store state at that point. `crashIndex` models the uncaught `IndexError`
of `lines[i + 1]` / `lines[i + 2]` when the line count is not a multiple of
three; `crashValue` models the uncaught `ValueError` of `int(...)`. -/
inductive ImpRes
  | done (s : State)
  | crashIndex (s : State)
  | crashValue (s : State)
deriving DecidableEq

/-- The loop `for i in range(0, len(lines), 3)` of `import_card`: per group of
three lines, strip each, parse the third as an integer, and upsert both
`self.cards[term] = definition` and `self.error_counter[term] = error`.
A group with fewer than three lines raises `IndexError` after reading the
lines that do exist but before storing anything from that group. -/
def importLoop (s : State) : List Str → ImpRes
  | [] => .done s
  | [_] => .crashIndex s
  | [_, _] => .crashIndex s
  | a :: b :: c :: rest =>
    match pyInt (strip c) with
    | none => .crashValue s
    | some e =>
      importLoop ⟨dictSet (strip a) (strip b) s.cards,
                  dictSet (strip a) e s.error_counter⟩ rest

/-- Overall outcome of `FlashcardManager.import_card`. Only
`FileNotFoundError` is caught ("File not found."); the two `crashed`
constructors model exceptions that escape and abort the process. On normal
completion the printed count is `len(lines) // 3`. -/
inductive ImportOutcome
  | loaded (s : State) (count : Nat)
  | fileNotFound (s : State)
  | crashedIndex (s : State)
  | crashedValue (s : State)
deriving DecidableEq

/-- `FlashcardManager.import_card`: `none` as the file models a missing file
(`FileNotFoundError`), `some lines` the file's lines (terms and definitions
hold no newline, so the file is faithfully a list of lines). -/
def import_card (s : State) : Option (List Str) → ImportOutcome
  | none => .fileNotFound s
  | some lines =>
    match importLoop s lines with
    | .done s' => .loaded s' (lines.length / 3)
    | .crashIndex s' => .crashedIndex s'
    | .crashValue s' => .crashedValue s'

/-- The store state an import outcome leaves behind (for a crash, the state
the dicts held when the exception was raised). -/
def stateOf : ImportOutcome → State
  | .loaded s _ => s
  | .fileNotFound s => s
  | .crashedIndex s => s
  | .crashedValue s => s

/-- Does the record loop complete without raising? -/
def loopDone : ImpRes → Bool
  | .done _ => true
  | _ => false

/-- The store state the record loop holds when it stops (normally or by
raising). -/
def loopState : ImpRes → State
  | .done s => s
  | .crashIndex s => s
  | .crashValue s => s

/-- A flashcard as a (term, definition, errorCount) triple. -/
structure Card where
  term : Str
  defn : Str
  err : Int
deriving DecidableEq

/-- The three lines `FlashcardManager.export_card` writes per card: term,
definition, `str(error count)`. -/
def encode (cs : List Card) : List Str :=
  cs.flatMap (fun c => [c.term, c.defn, intToStr c.err])

/-- Reads the store back off as a card sequence in `self.cards` iteration
order, looking each error count up in `self.error_counter` (`none` models the
`KeyError` of `self.error_counter[term]`). -/
def zipWithErrs : List (Str × Str) → List (Str × Int) → Option (List Card)
  | [], _ => some []
  | (t, d) :: rest, errs =>
    match dictGet t errs with
    | none => none
    | some e => (zipWithErrs rest errs).map (fun cs => ⟨t, d, e⟩ :: cs)

/-- `FlashcardManager.export_card` as a pure function: the lines written for
the current store. -/
def export_card (s : State) : Option (List Str) :=
  (zipWithErrs s.cards s.error_counter).map encode

/-- The decoder of the persistence format, as the source defines it: run the
`import_card` record loop on an empty store and read the cards back off.
`none` models a crash of the loop. -/
def decode (lines : List Str) : Option (List Card) :=
  match importLoop initState lines with
  | .done s => zipWithErrs s.cards s.error_counter
  | _ => none

/-- Grading outcome of one quiz question in `FlashcardManager.ask_card`. -/
inductive Outcome
  | correct
  | wrongMatch (t : Str)
  | wrong
deriving DecidableEq

/-- One iteration body of `ask_card` for a chosen `term` and the user's
`answer`: `Correct!` when the answer equals the card's definition; otherwise,
when the answer is some other card's definition, the wrong-but-matches
message naming the first such card; otherwise plain wrong. Both wrong cases
run `self.error_counter[term] += 1`. `none` models an uncaught `KeyError`. -/
def ask_one (s : State) (term answer : Str) : Option (Outcome × State) :=
  match dictGet term s.cards with
  | none => none
  | some defn =>
    if answer = defn then some (.correct, s)
    else if answer ∈ valuesOf s.cards then
      match firstKeyWithValue answer s.cards with
      | none => none
      | some c =>
        match incr term s.error_counter with
        | none => none
        | some errs => some (.wrongMatch c, ⟨s.cards, errs⟩)
    else
      match incr term s.error_counter with
      | none => none
      | some errs => some (.wrong, ⟨s.cards, errs⟩)

/-- The `for _ in range(n)` loop of `ask_card` over the term list computed
once up front. `pick i` drives `random.choice` (reduced modulo the list
length) and `answer i` is the user's `i`-th reply; the returned `Nat` counts
the quiz interactions performed. -/
def askLoop (terms : List Str) (pick : Nat → Nat) (answer : Nat → Str) :
    Nat → Nat → State → Option (State × Nat)
  | 0, _, s => some (s, 0)
  | k + 1, i, s =>
    let term := terms.getD (pick i % terms.length) []
    match ask_one s term (answer i) with
    | none => none
    | some (_, s') =>
      (askLoop terms pick answer k (i + 1) s').map (fun r => (r.1, r.2 + 1))

/-- `FlashcardManager.ask_card`: no cards means no questions; otherwise
`range(n)` iterations (`n.toNat` of them — a negative `n` yields zero, as
Python's `range`), each choosing a term from the snapshot of
`self.cards.keys()`. -/
def ask_card (s : State) (n : Int) (pick : Nat → Nat) (answer : Nat → Str) :
    Option (State × Nat) :=
  let terms := keysOf s.cards
  if terms = [] then some (s, 0)
  else askLoop terms pick answer n.toNat 0 s

/-- Python `max(l)` on a nonempty list (the code guards emptiness first). -/
def maxList : List Int → Int
  | [] => 0
  | x :: xs => xs.foldl max x

/-- `FlashcardManager.hardest_card`: empty output when `self.error_counter`
is empty or its maximum value is `0`; otherwise the keys whose count equals
the maximum, in iteration order. -/
def hardest_card (s : State) : List Str :=
  if s.error_counter = [] then []
  else if maxList (valuesOf s.error_counter) = 0 then []
  else (s.error_counter.filter (fun p => p.2 = maxList (valuesOf s.error_counter))).map
    Prod.fst

/-- The key-set inclusion `keys(self.cards) ⊆ keys(self.error_counter)`,
as a decidable check. -/
def invB (s : State) : Bool :=
  s.cards.all (fun p => (dictGet p.1 s.error_counter).isSome)

/-- A constant index oracle for the quiz (always picks index `0`). -/
def pickZero : Nat → Nat := fun _ => 0

/-- A constant answer oracle for the quiz. -/
def constAnswer (a : Str) : Nat → Str := fun _ => a

/-- Checks that a quiz run completes without an uncaught `KeyError` and that
the resulting state still satisfies the key-set inclusion. -/
def askInv (s : State) (n : Int) (pick : Nat → Nat) (answer : Nat → Str) : Bool :=
  match ask_card s n pick answer with
  | none => false
  | some r => invB r.1

lemma keysOf_nil {α : Type} : keysOf ([] : List (Str × α)) = [] := rfl

lemma keysOf_cons {α : Type} (p : Str × α) (l : List (Str × α)) :
    keysOf (p :: l) = p.1 :: keysOf l := rfl

lemma keysOf_append {α : Type} (l1 l2 : List (Str × α)) :
    keysOf (l1 ++ l2) = keysOf l1 ++ keysOf l2 := List.map_append _ _ _

lemma valuesOf_nil {α : Type} : valuesOf ([] : List (Str × α)) = [] := rfl

lemma valuesOf_cons {α : Type} (p : Str × α) (l : List (Str × α)) :
    valuesOf (p :: l) = p.2 :: valuesOf l := rfl

lemma valuesOf_append {α : Type} (l1 l2 : List (Str × α)) :
    valuesOf (l1 ++ l2) = valuesOf l1 ++ valuesOf l2 := List.map_append _ _ _

lemma mem_keysOf_iff_isSome {α : Type} (k : Str) (l : List (Str × α)) :
    k ∈ keysOf l ↔ (dictGet k l).isSome := by
  induction l with
  | nil => simp [keysOf_nil, dictGet]
  | cons p rest ih =>
    by_cases h : p.1 = k
    · simp [keysOf_cons, dictGet, h]
    · have h' : ¬k = p.1 := fun hh => h hh.symm
      simp [keysOf_cons, dictGet, h, h', ih]

lemma dictGet_dictSet {α : Type} (k t : Str) (v : α) (l : List (Str × α)) :
    dictGet k (dictSet t v l) = if t = k then some v else dictGet k l := by
  induction l with
  | nil => simp [dictSet, dictGet]
  | cons p rest ih =>
    by_cases h : p.1 = t
    · subst h
      by_cases hk : p.1 = k <;> simp [dictSet, dictGet, hk]
    · by_cases hk : p.1 = k
      · have ht : ¬t = k := fun hh => h (hk.trans hh.symm)
        have htk : ¬k = t := fun hh => ht hh.symm
        simp [dictSet, dictGet, h, hk, ht, htk]
      · simp [dictSet, dictGet, h, hk, ih]

lemma dictSet_fresh {α : Type} (k : Str) (v : α) (l : List (Str × α))
    (h : k ∉ keysOf l) : dictSet k v l = l ++ [(k, v)] := by
  induction l with
  | nil => rfl
  | cons p rest ih =>
    rw [keysOf_cons, List.mem_cons] at h
    push_neg at h
    have hp : ¬p.1 = k := fun hh => h.1 hh.symm
    simp [dictSet, hp, ih h.2]

lemma dictGet_append_of_not_mem {α : Type} (k : Str) (l1 l2 : List (Str × α))
    (h : k ∉ keysOf l1) : dictGet k (l1 ++ l2) = dictGet k l2 := by
  induction l1 with
  | nil => rfl
  | cons p rest ih =>
    rw [keysOf_cons, List.mem_cons] at h
    push_neg at h
    have hp : ¬p.1 = k := fun hh => h.1 hh.symm
    simp [dictGet, hp, ih h.2]

lemma dictGet_dictPop {α : Type} (k t : Str) (l : List (Str × α)) :
    dictGet k (dictPop t l) = if k = t then none else dictGet k l := by
  induction l with
  | nil => simp [dictPop, dictGet]
  | cons p rest ih =>
    by_cases h : p.1 = t
    · subst h
      by_cases hk : k = p.1
      · subst hk
        simp [dictPop, ih]
      · have h2 : ¬p.1 = k := fun hh => hk hh.symm
        simp [dictPop, ih, hk, dictGet, h2]
    · by_cases hk : p.1 = k
      · have h2 : ¬k = t := fun hh => h (hk.trans hh)
        simp [dictPop, dictGet, h, hk, h2]
      · simp [dictPop, dictGet, h, hk, ih]

lemma incr_keysOf (k : Str) (l l' : List (Str × Int)) (h : incr k l = some l') :
    keysOf l' = keysOf l := by
  induction l generalizing l' with
  | nil => simp [incr] at h
  | cons p rest ih =>
    by_cases hp : p.1 = k
    · simp only [incr, if_pos hp, Option.some.injEq] at h
      subst h
      simp [keysOf_cons]
    · simp only [incr, if_neg hp, Option.map_eq_some'] at h
      obtain ⟨a, ha, rfl⟩ := h
      simp [keysOf_cons, ih a ha]

lemma incr_isSome (k : Str) (l : List (Str × Int))
    (h : (dictGet k l).isSome) : (incr k l).isSome := by
  induction l with
  | nil => simp [dictGet] at h
  | cons p rest ih =>
    by_cases hp : p.1 = k
    · simp [incr, hp]
    · simp only [dictGet, if_neg hp] at h
      have hr := ih h
      cases hs : incr k rest with
      | none => rw [hs] at hr; simp at hr
      | some a => simp [incr, hp, hs]

lemma firstKeyWithValue_isSome (v : Str) (l : List (Str × Str))
    (h : v ∈ valuesOf l) : (firstKeyWithValue v l).isSome := by
  induction l with
  | nil => simp [valuesOf_nil] at h
  | cons p rest ih =>
    by_cases hp : p.2 = v
    · simp [firstKeyWithValue, hp]
    · rw [valuesOf_cons, List.mem_cons] at h
      rcases h with h | h
      · exact absurd h.symm hp
      · simp only [firstKeyWithValue, if_neg hp]
        exact ih h

lemma stripLeft_eq_self (s : Str) (h : ∀ c ∈ s, isPySpace c = false) :
    stripLeft s = s := by
  cases s with
  | nil => rfl
  | cons c cs =>
    simp [stripLeft, List.dropWhile_cons, h c (List.mem_cons_self c cs)]

lemma strip_eq_self (s : Str) (h : ∀ c ∈ s, isPySpace c = false) : strip s = s := by
  rw [strip, stripLeft_eq_self s h,
    stripLeft_eq_self s.reverse (fun c hc => h c (List.mem_reverse.mp hc)),
    List.reverse_reverse]

lemma digitChar_toNat (d : Nat) (h : d < 10) : (digitChar d).toNat = 48 + d := by
  interval_cases d <;> decide

lemma isDigitC_digitChar (d : Nat) (h : d < 10) : isDigitC (digitChar d) = true := by
  interval_cases d <;> decide

lemma not_isPySpace_of_digit (c : Char) (h : isDigitC c = true) :
    isPySpace c = false := by
  by_contra hc
  have hsp : isPySpace c = true := by
    cases hb : isPySpace c
    · exact absurd hb hc
    · rfl
  have hd : c = ' ' ∨ c = '\t' ∨ c = '\n' ∨ c = '\r' ∨ c = '\x0b' ∨ c = '\x0c' := by
    simpa [isPySpace, Bool.or_eq_true, decide_eq_true_eq, or_assoc] using hsp
  rcases hd with rfl | rfl | rfl | rfl | rfl | rfl <;> exact absurd h (by decide)

lemma digitsVal_append (xs : Str) (c : Char) :
    digitsVal (xs ++ [c]) = digitsVal xs * 10 + (c.toNat - 48) := by
  simp [digitsVal, List.foldl_append]

lemma toDigitsRev_eq_digits :
    ∀ fuel n, n ≤ fuel → toDigitsRev fuel n = Nat.digits 10 n := by
  intro fuel
  induction fuel with
  | zero =>
    intro n h
    interval_cases n
    simp [toDigitsRev]
  | succ f ih =>
    intro n h
    by_cases hn : n = 0
    · subst hn; simp [toDigitsRev]
    · have hdiv : n / 10 < n := Nat.div_lt_self (Nat.pos_of_ne_zero hn) (by norm_num)
      rw [toDigitsRev, if_neg hn,
        Nat.digits_def' (by norm_num : (1 : ℕ) < 10) (Nat.pos_of_ne_zero hn),
        ih (n / 10) (by omega)]

lemma digitsVal_rev_map (L : List Nat) (h : ∀ d ∈ L, d < 10) :
    digitsVal ((L.map digitChar).reverse) = Nat.ofDigits 10 L := by
  induction L with
  | nil => simp [digitsVal, Nat.ofDigits_nil]
  | cons d L ih =>
    have hd := h d (List.mem_cons_self d L)
    rw [List.map_cons, List.reverse_cons, digitsVal_append,
      ih (fun x hx => h x (List.mem_cons_of_mem d hx)),
      digitChar_toNat d hd, Nat.ofDigits_cons]
    omega

lemma natToStr_all_digits (n : Nat) : ∀ c ∈ natToStr n, isDigitC c = true := by
  intro c hc
  by_cases hn : n = 0
  · subst hn
    simp [natToStr] at hc
    subst hc
    decide
  · rw [natToStr, if_neg hn, toDigitsRev_eq_digits n n le_rfl] at hc
    rw [List.mem_reverse, List.mem_map] at hc
    obtain ⟨d, hd, rfl⟩ := hc
    exact isDigitC_digitChar d (Nat.digits_lt_base (by norm_num) hd)

lemma digitsVal_natToStr (n : Nat) : digitsVal (natToStr n) = n := by
  by_cases hn : n = 0
  · subst hn; decide
  · rw [natToStr, if_neg hn, toDigitsRev_eq_digits n n le_rfl,
      digitsVal_rev_map _ (fun d hd => Nat.digits_lt_base (by norm_num) hd),
      Nat.ofDigits_digits]

lemma natToStr_ne_nil (n : Nat) : natToStr n ≠ [] := by
  by_cases hn : n = 0
  · subst hn; decide
  · rw [natToStr, if_neg hn, toDigitsRev_eq_digits n n le_rfl]
    intro h
    have hlen : Nat.digits 10 n = [] := by
      have := congrArg List.length h
      simpa using this
    exact hn (Nat.digits_eq_nil_iff_eq_zero.mp hlen)

lemma pyInt_natToStr (n : Nat) : pyInt (natToStr n) = some (n : Int) := by
  obtain ⟨c, cs, hcs⟩ : ∃ c cs, natToStr n = c :: cs := by
    cases h : natToStr n with
    | nil => exact absurd h (natToStr_ne_nil n)
    | cons c cs => exact ⟨c, cs, rfl⟩
  have hall := natToStr_all_digits n
  rw [hcs] at hall
  have hc : isDigitC c = true := hall c (List.mem_cons_self c cs)
  have hplus : ¬c = '+' := by intro hh; subst hh; exact absurd hc (by decide)
  have hminus : ¬c = '-' := by intro hh; subst hh; exact absurd hc (by decide)
  have hcall : (c :: cs).all isDigitC = true := List.all_eq_true.mpr hall
  rw [hcs]
  simp only [pyInt, if_neg hplus, if_neg hminus, if_pos hcall]
  rw [← hcs, digitsVal_natToStr]

lemma pyInt_strip_intToStr (e : Int) (he : 0 ≤ e) :
    pyInt (strip (intToStr e)) = some e := by
  have h1 : intToStr e = natToStr e.toNat := by
    rw [intToStr, if_neg (by omega : ¬e < 0)]
  rw [h1,
    strip_eq_self _ (fun c hc => not_isPySpace_of_digit c (natToStr_all_digits _ c hc)),
    pyInt_natToStr, Int.toNat_of_nonneg he]

lemma strip_intToStr (e : Int) (he : 0 ≤ e) : strip (intToStr e) = intToStr e := by
  have h1 : intToStr e = natToStr e.toNat := by
    rw [intToStr, if_neg (by omega : ¬e < 0)]
  rw [h1,
    strip_eq_self _ (fun c hc => not_isPySpace_of_digit c (natToStr_all_digits _ c hc))]

lemma le_foldl_max (a : Int) (xs : List Int) : a ≤ xs.foldl max a := by
  induction xs generalizing a with
  | nil => simp
  | cons x xs ih => exact le_trans (le_max_left a x) (ih (max a x))

lemma mem_le_foldl_max (v : Int) (xs : List Int) (a : Int) (h : v ∈ xs) :
    v ≤ xs.foldl max a := by
  induction xs generalizing a with
  | nil => simp at h
  | cons x xs ih =>
    rcases List.mem_cons.mp h with rfl | h2
    · exact le_trans (le_max_right a v) (le_foldl_max _ _)
    · exact ih (max a x) h2

lemma le_maxList (v : Int) (l : List Int) (h : v ∈ l) : v ≤ maxList l := by
  cases l with
  | nil => simp at h
  | cons x xs =>
    rcases List.mem_cons.mp h with rfl | h2
    · exact le_foldl_max v xs
    · exact mem_le_foldl_max v xs x h2

lemma foldl_max_mem (a : Int) (xs : List Int) : xs.foldl max a ∈ a :: xs := by
  induction xs generalizing a with
  | nil => simp
  | cons x xs ih =>
    have h := ih (max a x)
    simp only [List.foldl_cons]
    rcases List.mem_cons.mp h with h2 | h2
    · rw [h2]
      rcases max_choice a x with h3 | h3 <;> rw [h3] <;> simp
    · simp [h2]

lemma maxList_mem (l : List Int) (h : l ≠ []) : maxList l ∈ l := by
  cases l with
  | nil => exact absurd rfl h
  | cons x xs => exact foldl_max_mem x xs

lemma invB_iff (s : State) :
    invB s = true ↔
      ∀ k ∈ keysOf s.cards, (dictGet k s.error_counter).isSome = true := by
  rw [invB, List.all_eq_true]
  constructor
  · intro h k hk
    rw [keysOf] at hk
    obtain ⟨p, hp, rfl⟩ := List.mem_map.mp hk
    exact h p hp
  · intro h p hp
    exact h p.1 (List.mem_map_of_mem Prod.fst hp)

lemma invB_dictSet (s : State) (t : Str) (d : Str) (e : Int) (h : invB s = true) :
    invB ⟨dictSet t d s.cards, dictSet t e s.error_counter⟩ = true := by
  rw [invB_iff] at h ⊢
  intro k hk
  rw [dictGet_dictSet]
  by_cases hkt : t = k
  · simp [hkt]
  · rw [if_neg hkt]
    apply h
    rw [mem_keysOf_iff_isSome] at hk ⊢
    rw [dictGet_dictSet, if_neg hkt] at hk
    exact hk

lemma invB_incr (s : State) (t : Str) (errs : List (Str × Int))
    (h : invB s = true) (hi : incr t s.error_counter = some errs) :
    invB ⟨s.cards, errs⟩ = true := by
  rw [invB_iff] at h ⊢
  intro k hk
  rw [← mem_keysOf_iff_isSome, incr_keysOf t _ _ hi, mem_keysOf_iff_isSome]
  exact h k hk

lemma invB_reset (s : State) (h : invB s = true) : invB (reset_stats s) = true := by
  rw [invB_iff] at h ⊢
  simp only [reset_stats]
  intro k hk
  rw [← mem_keysOf_iff_isSome, keysOf, List.map_map]
  exact (mem_keysOf_iff_isSome k s.error_counter).mpr (h k hk)

lemma invB_remove (s : State) (t : Str) (h : invB s = true) :
    invB (remove_card s t).1 = true := by
  by_cases hp : (dictGet t s.cards).isSome
  · rw [remove_card, if_pos hp]
    rw [invB_iff] at h ⊢
    intro k hk
    apply h
    rw [mem_keysOf_iff_isSome] at hk ⊢
    rw [dictGet_dictPop] at hk
    by_cases hkt : k = t
    · rw [if_pos hkt] at hk
      simp at hk
    · rwa [if_neg hkt] at hk
  · rw [remove_card, if_neg hp]
    exact h

lemma add_card_ok (s : State) (t d : Str) (s' : State)
    (h : add_card s t d = .ok s') :
    dictGet t s.cards = none ∧ d ∉ valuesOf s.cards ∧
      s' = ⟨dictSet t d s.cards, dictSet t 0 s.error_counter⟩ := by
  by_cases h1 : (dictGet t s.cards).isSome
  · simp [add_card, h1] at h
  · by_cases h2 : d ∈ valuesOf s.cards
    · simp [add_card, h1, h2] at h
    · refine ⟨Option.not_isSome_iff_eq_none.mp h1, h2, ?_⟩
      simp only [add_card, h1, h2, if_false, if_neg h2, Bool.false_eq_true,
        Except.ok.injEq] at h
      exact h.symm

lemma addAll_nodup (l : List (Str × Str)) :
    ∀ s s', addAll s l = some s' →
    (keysOf s.cards).Nodup → (valuesOf s.cards).Nodup →
    (keysOf s'.cards).Nodup ∧ (valuesOf s'.cards).Nodup := by
  induction l with
  | nil =>
    intro s s' h h1 h2
    simp only [addAll, Option.some.injEq] at h
    subst h
    exact ⟨h1, h2⟩
  | cons p rest ih =>
    intro s s' h h1 h2
    obtain ⟨t, d⟩ := p
    rw [addAll] at h
    cases hadd : add_card s t d with
    | error e => rw [hadd] at h; simp at h
    | ok s1 =>
      rw [hadd] at h
      obtain ⟨hget, hval, rfl⟩ := add_card_ok s t d s1 hadd
      have ht : t ∉ keysOf s.cards := by
        rw [mem_keysOf_iff_isSome, hget]
        simp
      have hfr := dictSet_fresh t d s.cards ht
      have hkeys : keysOf (dictSet t d s.cards) = keysOf s.cards ++ [t] := by
        rw [hfr, keysOf_append]
        rfl
      have hvals : valuesOf (dictSet t d s.cards) = valuesOf s.cards ++ [d] := by
        rw [hfr, valuesOf_append]
        rfl
      refine ih _ s' h ?_ ?_
      · rw [hkeys]
        simp only [List.nodup_append, List.nodup_singleton, true_and,
          List.disjoint_singleton]
        exact ⟨h1, ht⟩
      · rw [hvals]
        simp only [List.nodup_append, List.nodup_singleton, true_and,
          List.disjoint_singleton]
        exact ⟨h2, hval⟩

lemma importLoop_not_done_aux :
    ∀ (n : Nat) (lines : List Str) (s : State), lines.length ≤ n →
      lines.length % 3 ≠ 0 → loopDone (importLoop s lines) = false := by
  intro n
  induction n with
  | zero =>
    intro lines s hl hm
    have : lines = [] := List.eq_nil_of_length_eq_zero (Nat.le_zero.mp hl)
    subst this
    simp at hm
  | succ m ih =>
    intro lines s hl hm
    rcases lines with _ | ⟨a, _ | ⟨b, _ | ⟨c, rest⟩⟩⟩
    · simp at hm
    · rfl
    · rfl
    · rw [importLoop]
      cases hp : pyInt (strip c) with
      | none => rfl
      | some e =>
        apply ih rest _ ?_ ?_
        · simp only [List.length_cons] at hl
          omega
        · simp only [List.length_cons] at hm ⊢
          omega

lemma importLoop_not_done (lines : List Str) (s : State)
    (hm : lines.length % 3 ≠ 0) : loopDone (importLoop s lines) = false :=
  importLoop_not_done_aux lines.length lines s le_rfl hm

lemma importLoop_invB_aux :
    ∀ (n : Nat) (lines : List Str) (s : State), lines.length ≤ n →
      invB s = true → invB (loopState (importLoop s lines)) = true := by
  intro n
  induction n with
  | zero =>
    intro lines s hl h
    have : lines = [] := List.eq_nil_of_length_eq_zero (Nat.le_zero.mp hl)
    subst this
    exact h
  | succ m ih =>
    intro lines s hl h
    rcases lines with _ | ⟨a, _ | ⟨b, _ | ⟨c, rest⟩⟩⟩
    · exact h
    · exact h
    · exact h
    · rw [importLoop]
      cases hp : pyInt (strip c) with
      | none => exact h
      | some e =>
        apply ih rest _ ?_ (invB_dictSet s (strip a) (strip b) e h)
        simp only [List.length_cons] at hl
        omega

lemma importLoop_invB (lines : List Str) (s : State) (h : invB s = true) :
    invB (loopState (importLoop s lines)) = true :=
  importLoop_invB_aux lines.length lines s le_rfl h

lemma importLoop_encode (cs : List Card) :
    ∀ c0 e0,
    (∀ c ∈ cs, strip c.term = c.term ∧ strip c.defn = c.defn ∧ 0 ≤ c.err) →
    (∀ c ∈ cs, c.term ∉ keysOf c0 ∧ c.term ∉ keysOf e0) →
    (cs.map Card.term).Nodup →
    importLoop ⟨c0, e0⟩ (encode cs)
      = .done ⟨c0 ++ cs.map (fun c => (c.term, c.defn)),
               e0 ++ cs.map (fun c => (c.term, c.err))⟩ := by
  induction cs with
  | nil =>
    intro c0 e0 _ _ _
    simp [encode, importLoop]
  | cons c cs ih =>
    intro c0 e0 hws hfresh hnd
    obtain ⟨ht, hd, he⟩ := hws c (List.mem_cons_self c cs)
    obtain ⟨hf1, hf2⟩ := hfresh c (List.mem_cons_self c cs)
    have hnd0 := hnd
    rw [List.map_cons, List.nodup_cons] at hnd0
    have hstep : encode (c :: cs) = c.term :: c.defn :: intToStr c.err :: encode cs := rfl
    rw [hstep]
    simp only [importLoop, pyInt_strip_intToStr c.err he, ht, hd]
    rw [dictSet_fresh _ _ _ hf1, dictSet_fresh _ _ _ hf2]
    have hws' : ∀ x ∈ cs, strip x.term = x.term ∧ strip x.defn = x.defn ∧ 0 ≤ x.err :=
      fun x hx => hws x (List.mem_cons_of_mem c hx)
    have hfresh' : ∀ x ∈ cs, x.term ∉ keysOf (c0 ++ [(c.term, c.defn)]) ∧
        x.term ∉ keysOf (e0 ++ [(c.term, c.err)]) := by
      intro x hx
      have hne : x.term ≠ c.term :=
        fun hh => hnd0.1 (hh ▸ List.mem_map_of_mem Card.term hx)
      have hf := hfresh x (List.mem_cons_of_mem c hx)
      constructor
      · rw [keysOf_append, List.mem_append]
        push_neg
        exact ⟨hf.1, by simp [keysOf_cons, keysOf_nil, hne]⟩
      · rw [keysOf_append, List.mem_append]
        push_neg
        exact ⟨hf.2, by simp [keysOf_cons, keysOf_nil, hne]⟩
    rw [ih (c0 ++ [(c.term, c.defn)]) (e0 ++ [(c.term, c.err)]) hws' hfresh' hnd0.2]
    simp [List.append_assoc]

lemma zipWithErrs_append (cs : List Card) :
    ∀ pre : List (Str × Int), (cs.map Card.term).Nodup →
    (∀ x ∈ cs, x.term ∉ keysOf pre) →
    zipWithErrs (cs.map (fun c => (c.term, c.defn)))
        (pre ++ cs.map (fun c => (c.term, c.err)))
      = some cs := by
  induction cs with
  | nil =>
    intro pre _ _
    simp [zipWithErrs]
  | cons c cs ih =>
    intro pre hnd hfresh
    have hnd0 := hnd
    rw [List.map_cons, List.nodup_cons] at hnd0
    have hget : dictGet c.term
        (pre ++ (c.term, c.err) :: cs.map (fun c => (c.term, c.err)))
        = some c.err := by
      rw [dictGet_append_of_not_mem _ _ _ (hfresh c (List.mem_cons_self c cs))]
      simp [dictGet]
    have hfresh' : ∀ x ∈ cs, x.term ∉ keysOf (pre ++ [(c.term, c.err)]) := by
      intro x hx
      have hne : x.term ≠ c.term :=
        fun hh => hnd0.1 (hh ▸ List.mem_map_of_mem Card.term hx)
      rw [keysOf_append, List.mem_append]
      push_neg
      exact ⟨hfresh x (List.mem_cons_of_mem c hx),
        by simp [keysOf_cons, keysOf_nil, hne]⟩
    have heq : pre ++ (c.term, c.err) :: cs.map (fun c => (c.term, c.err))
        = (pre ++ [(c.term, c.err)]) ++ cs.map (fun c => (c.term, c.err)) := by
      simp
    simp only [List.map_cons, zipWithErrs, hget]
    rw [heq, ih (pre ++ [(c.term, c.err)]) hnd0.2 hfresh']
    rfl

lemma decode_encode (cs : List Card)
    (hws : ∀ c ∈ cs, strip c.term = c.term ∧ strip c.defn = c.defn ∧ 0 ≤ c.err)
    (hnd : (cs.map Card.term).Nodup) :
    decode (encode cs) = some cs := by
  have h1 := importLoop_encode cs [] [] hws
    (fun c _ => by simp [keysOf_nil]) hnd
  simp only [decode, initState, h1, List.nil_append]
  exact zipWithErrs_append cs [] hnd (fun x _ => by simp [keysOf_nil])

lemma ask_one_some (s : State) (t a : Str) (ht : t ∈ keysOf s.cards)
    (h : invB s = true) :
    ∃ o s', ask_one s t a = some (o, s') ∧ s'.cards = s.cards ∧ invB s' = true := by
  have ht' := ht
  rw [mem_keysOf_iff_isSome] at ht'
  obtain ⟨d, hd⟩ := Option.isSome_iff_exists.mp ht'
  simp only [ask_one, hd]
  by_cases h1 : a = d
  · rw [if_pos h1]
    exact ⟨.correct, s, rfl, rfl, h⟩
  · rw [if_neg h1]
    have hinc : (incr t s.error_counter).isSome := by
      apply incr_isSome
      exact (invB_iff s).mp h t ht
    obtain ⟨errs, herrs⟩ := Option.isSome_iff_exists.mp hinc
    by_cases h2 : a ∈ valuesOf s.cards
    · rw [if_pos h2]
      obtain ⟨c, hc⟩ := Option.isSome_iff_exists.mp (firstKeyWithValue_isSome a s.cards h2)
      rw [hc, herrs]
      exact ⟨.wrongMatch c, ⟨s.cards, errs⟩, rfl, rfl, invB_incr s t errs h herrs⟩
    · rw [if_neg h2, herrs]
      exact ⟨.wrong, ⟨s.cards, errs⟩, rfl, rfl, invB_incr s t errs h herrs⟩

lemma askLoop_some (terms : List Str) (pick : Nat → Nat) (answer : Nat → Str)
    (hterms : terms ≠ []) :
    ∀ (k i : Nat) (s : State), keysOf s.cards = terms → invB s = true →
    ∃ s' c, askLoop terms pick answer k i s = some (s', c) ∧
      keysOf s'.cards = terms ∧ invB s' = true := by
  intro k
  induction k with
  | zero =>
    intro i s hkeys h
    exact ⟨s, 0, rfl, hkeys, h⟩
  | succ m ih =>
    intro i s hkeys h
    have hlen : 0 < terms.length := List.length_pos.mpr hterms
    have hmem : terms.getD (pick i % terms.length) [] ∈ terms := by
      rw [List.getD_eq_getElem _ _ (Nat.mod_lt _ hlen)]
      exact List.getElem_mem _
    obtain ⟨o, s1, ho, hc, hinv⟩ :=
      ask_one_some s (terms.getD (pick i % terms.length) []) (answer i)
        (by rw [hkeys]; exact hmem) h
    obtain ⟨s', c, hl, hk2, hi2⟩ := ih (i + 1) s1 (by rw [hc]; exact hkeys) hinv
    simp only [askLoop, ho, hl]
    exact ⟨s', c + 1, rfl, hk2, hi2⟩

lemma ask_card_some (s : State) (n : Int) (pick : Nat → Nat) (answer : Nat → Str)
    (h : invB s = true) :
    ∃ s' c, ask_card s n pick answer = some (s', c) ∧ invB s' = true ∧
      keysOf s'.cards = keysOf s.cards := by
  by_cases hc : keysOf s.cards = []
  · exact ⟨s, 0, by simp [ask_card, hc], h, rfl⟩
  · obtain ⟨s', c, hl, hk, hi⟩ :=
      askLoop_some (keysOf s.cards) pick answer hc n.toNat 0 s rfl h
    exact ⟨s', c, by simp [ask_card, hc, hl], hi, hk⟩

/-- C1, counterexample: after `add("a", "b")` the state is reachable, and
`remove("a")` succeeds but leaves the error-count entry for `"a"` in place,
so the two mappings do not have identical key sets — `remove_card` pops only
`self.cards`. -/
theorem C1_counterexample :
    add_card initState ("a".toList) ("b".toList)
      = .ok ⟨[("a".toList, "b".toList)], [("a".toList, 0)]⟩ ∧
    remove_card ⟨[("a".toList, "b".toList)], [("a".toList, 0)]⟩ ("a".toList)
      = (⟨[], [("a".toList, 0)]⟩, true) ∧
    keysOf ((⟨[], [("a".toList, 0)]⟩ : State).cards)
      ≠ keysOf ((⟨[], [("a".toList, 0)]⟩ : State).error_counter) := by decide

/-- C1, amended: `remove(term)` on a present term deletes only the definition
entry; the error-count mapping is returned untouched, so the key sets need
not stay identical (only `keys(cards) ⊆ keys(error_counter)` is preserved,
see C10). -/
theorem C1_remove_deletes_only_definition (s : State) (t : Str)
    (h : (dictGet t s.cards).isSome = true) :
    remove_card s t = (⟨dictPop t s.cards, s.error_counter⟩, true) ∧
    dictGet t (remove_card s t).1.cards = none ∧
    (remove_card s t).1.error_counter = s.error_counter := by
  have h1 : remove_card s t = (⟨dictPop t s.cards, s.error_counter⟩, true) := by
    rw [remove_card, if_pos h]
  refine ⟨h1, ?_, by rw [h1]⟩
  rw [h1]
  exact dictGet_dictPop t t s.cards |>.trans (if_pos rfl)

theorem C1_witness :
    remove_card ⟨[("a".toList, "b".toList)], [("a".toList, 0)]⟩ ("a".toList)
      = (⟨dictPop ("a".toList) [("a".toList, "b".toList)], [("a".toList, 0)]⟩, true) ∧
    dictGet ("a".toList)
        (remove_card ⟨[("a".toList, "b".toList)], [("a".toList, 0)]⟩ ("a".toList)).1.cards
      = none ∧
    (remove_card ⟨[("a".toList, "b".toList)], [("a".toList, 0)]⟩
        ("a".toList)).1.error_counter = [("a".toList, 0)] :=
  C1_remove_deletes_only_definition
    ⟨[("a".toList, "b".toList)], [("a".toList, 0)]⟩ ("a".toList) (by decide)

/-- C2, counterexample: the card `("a ", "b", 0)` has no embedded newline and
a non-negative error count, yet the decode of its encode is the card
`("a", "b", 0)`: Python `line.strip()` removes the trailing blank of the
term, so `decode(encode(cards)) ≠ cards`. -/
theorem C2_counterexample :
    ('\n' ∉ "a ".toList) ∧ ('\n' ∉ "b".toList) ∧ ((0 : Int) ≤ 0) ∧
    decode (encode [Card.mk ("a ".toList) ("b".toList) 0])
      = some [Card.mk ("a".toList) ("b".toList) 0] ∧
    some [Card.mk ("a".toList) ("b".toList) 0]
      ≠ some [Card.mk ("a ".toList) ("b".toList) 0] := by decide

/-- C2, amended: for cards with pairwise-distinct terms whose terms and
definitions contain no embedded newline and are unchanged by whitespace
stripping (no leading or trailing whitespace — `strip` trims both sides),
and whose error counts are non-negative, decoding the encoded
three-line-per-card output yields exactly the original cards. -/
theorem C2_roundtrip (cs : List Card)
    (_hnl : ∀ c ∈ cs, ('\n' : Char) ∉ c.term ∧ ('\n' : Char) ∉ c.defn)
    (hws : ∀ c ∈ cs, strip c.term = c.term ∧ strip c.defn = c.defn)
    (herr : ∀ c ∈ cs, 0 ≤ c.err)
    (hnd : (cs.map Card.term).Nodup) :
    decode (encode cs) = some cs :=
  decode_encode cs (fun c hc => ⟨(hws c hc).1, (hws c hc).2, herr c hc⟩) hnd

theorem C2_witness :
    decode (encode [Card.mk ("hola".toList) ("hello".toList) 2])
      = some [Card.mk ("hola".toList) ("hello".toList) 2] :=
  C2_roundtrip [Card.mk ("hola".toList) ("hello".toList) 2]
    (by decide) (by decide) (by decide) (by decide)

/-- C3, counterexample: a 4-line import source does not yield one record and
does not fail with a reported malformed-record condition — it inserts the one
complete record and then raises an uncaught `IndexError` (the code catches
only `FileNotFoundError`), and a non-numeric third line raises an uncaught
`ValueError`; both abort the process. -/
theorem C3_counterexample :
    import_card initState (some ["a".toList, "b".toList, "0".toList, "c".toList])
      = .crashedIndex ⟨[("a".toList, "b".toList)], [("a".toList, 0)]⟩ ∧
    import_card initState (some ["a".toList, "b".toList, "x".toList])
      = .crashedValue initState := by decide

/-- C3, amended: when the line count is not a multiple of three the record
loop never completes normally (it raises `IndexError` on the trailing partial
group), and a third line that `int(...)` cannot parse raises `ValueError`
with the store as it was before that record; neither is caught, so the
process terminates abnormally instead of reporting a malformed record. -/
theorem C3_malformed_import_crashes :
    (∀ (s : State) (lines : List Str), lines.length % 3 ≠ 0 →
      loopDone (importLoop s lines) = false) ∧
    (∀ (s : State) (a b c : Str) (rest : List Str), pyInt (strip c) = none →
      importLoop s (a :: b :: c :: rest) = .crashValue s) :=
  ⟨fun s lines hm => importLoop_not_done lines s hm,
   fun s a b c rest hp => by simp only [importLoop, hp]⟩

theorem C3_witness :
    loopDone (importLoop initState ["a".toList]) = false ∧
    importLoop initState ("a".toList :: "b".toList :: "x".toList :: [])
      = .crashValue initState :=
  ⟨C3_malformed_import_crashes.1 initState ["a".toList] (by decide),
   C3_malformed_import_crashes.2 initState ("a".toList) ("b".toList)
     ("x".toList) [] (by decide)⟩

/-- C4: every state reached from the empty store by successful `add` calls
has pairwise-distinct terms and pairwise-distinct definitions; `add` fails
with the duplicate-term error when the term is present, with the
duplicate-definition error when the definition matches an existing one, and
on success initializes the new term's error count to `0`. -/
theorem C4_add_uniqueness :
    (∀ (l : List (Str × Str)) (s : State), addAll initState l = some s →
      (keysOf s.cards).Nodup ∧ (valuesOf s.cards).Nodup) ∧
    (∀ (s : State) (t d : Str), (dictGet t s.cards).isSome = true →
      add_card s t d = .error .dupTerm) ∧
    (∀ (s : State) (t d : Str), (dictGet t s.cards).isSome = false →
      d ∈ valuesOf s.cards → add_card s t d = .error .dupDef) ∧
    (∀ (s s' : State) (t d : Str), add_card s t d = .ok s' →
      dictGet t s'.error_counter = some 0) := by
  refine ⟨?_, ?_, ?_, ?_⟩
  · intro l s h
    exact addAll_nodup l initState s h (by decide) (by decide)
  · intro s t d h
    rw [add_card, if_pos h]
  · intro s t d h1 h2
    rw [add_card, if_neg (by simp [h1]), if_pos h2]
  · intro s s' t d h
    obtain ⟨_, _, rfl⟩ := add_card_ok s t d s' h
    exact (dictGet_dictSet t t 0 s.error_counter).trans (if_pos rfl)

theorem C4_witness :
    ((keysOf ((⟨[("hola".toList, "hello".toList)], [("hola".toList, 0)]⟩ :
        State).cards)).Nodup ∧
      (valuesOf ((⟨[("hola".toList, "hello".toList)], [("hola".toList, 0)]⟩ :
        State).cards)).Nodup) ∧
    add_card ⟨[("hola".toList, "hello".toList)], [("hola".toList, 0)]⟩
        ("hola".toList) ("goodbye".toList) = .error .dupTerm ∧
    add_card ⟨[("hola".toList, "hello".toList)], [("hola".toList, 0)]⟩
        ("ciao".toList) ("hello".toList) = .error .dupDef ∧
    dictGet ("hola".toList)
        ((⟨[("hola".toList, "hello".toList)], [("hola".toList, 0)]⟩ :
          State).error_counter) = some 0 :=
  ⟨C4_add_uniqueness.1 [("hola".toList, "hello".toList)]
      ⟨[("hola".toList, "hello".toList)], [("hola".toList, 0)]⟩ (by decide),
   C4_add_uniqueness.2.1 ⟨[("hola".toList, "hello".toList)], [("hola".toList, 0)]⟩
      ("hola".toList) ("goodbye".toList) (by decide),
   C4_add_uniqueness.2.2.1 ⟨[("hola".toList, "hello".toList)], [("hola".toList, 0)]⟩
      ("ciao".toList) ("hello".toList) (by decide) (by decide),
   C4_add_uniqueness.2.2.2 initState
      ⟨[("hola".toList, "hello".toList)], [("hola".toList, 0)]⟩
      ("hola".toList) ("hello".toList) (by decide)⟩

/-- C5: `hardest_card` returns empty when the error-count mapping is empty or
all counts are `0`; when some count `m` is the maximum and positive it
returns exactly the terms whose count equals `m`, in iteration order; on
counts A:3, B:5, C:5, D:0 it returns B, C with maximum 5. -/
theorem C5_hardest_card_correct :
    (∀ s : State, s.error_counter = [] → hardest_card s = []) ∧
    (∀ s : State, (∀ p ∈ s.error_counter, p.2 = 0) → hardest_card s = []) ∧
    (∀ (s : State) (m : Int), m ∈ valuesOf s.error_counter →
      (∀ v ∈ valuesOf s.error_counter, v ≤ m) → 0 < m →
      hardest_card s
        = (s.error_counter.filter (fun p => p.2 = m)).map Prod.fst) ∧
    (hardest_card ⟨[], [("A".toList, 3), ("B".toList, 5), ("C".toList, 5),
        ("D".toList, 0)]⟩ = ["B".toList, "C".toList] ∧
      maxList (valuesOf [("A".toList, (3 : Int)), ("B".toList, 5),
        ("C".toList, 5), ("D".toList, 0)]) = 5) := by
  refine ⟨?_, ?_, ?_, by decide⟩
  · intro s h
    rw [hardest_card, if_pos h]
  · intro s h
    by_cases he : s.error_counter = []
    · rw [hardest_card, if_pos he]
    · have hne : valuesOf s.error_counter ≠ [] := by
        cases herr : s.error_counter with
        | nil => exact absurd herr he
        | cons q rest => rw [valuesOf_cons]; simp
      have hm : maxList (valuesOf s.error_counter)
          ∈ List.map Prod.snd s.error_counter := maxList_mem _ hne
      obtain ⟨p, hp, hval⟩ := List.mem_map.mp hm
      rw [hardest_card, if_neg he,
        if_pos (show maxList (valuesOf s.error_counter) = 0 by
          rw [← hval]; exact h p hp)]
  · intro s m hm hal hpos
    have hvne : valuesOf s.error_counter ≠ [] := by
      intro hv
      rw [hv] at hm
      simp at hm
    have he : s.error_counter ≠ [] := by
      intro hh
      rw [hh] at hm
      simp [valuesOf_nil] at hm
    have heq : maxList (valuesOf s.error_counter) = m :=
      le_antisymm (hal _ (maxList_mem _ hvne)) (le_maxList m _ hm)
    rw [hardest_card, if_neg he, heq, if_neg (by omega)]

theorem C5_witness :
    hardest_card ⟨[], [("A".toList, 0), ("B".toList, 0)]⟩ = [] :=
  C5_hardest_card_correct.2.1 ⟨[], [("A".toList, 0), ("B".toList, 0)]⟩
    (by decide)

/-- C6: in the store cat→feline, dog→canine, asking about cat and answering
"canine" yields the wrong-but-matches-other-term outcome naming dog (the
first matching term in iteration order) and increments cat's error count to
1 while dog's stays 0 — both for the single grading step and for a one-round
`ask_card` run whose random pick selects cat. -/
theorem C6_quiz_grading_scenario :
    ask_one ⟨[("cat".toList, "feline".toList), ("dog".toList, "canine".toList)],
        [("cat".toList, 0), ("dog".toList, 0)]⟩ ("cat".toList) ("canine".toList)
      = some (.wrongMatch ("dog".toList),
          ⟨[("cat".toList, "feline".toList), ("dog".toList, "canine".toList)],
           [("cat".toList, 1), ("dog".toList, 0)]⟩) ∧
    ask_card ⟨[("cat".toList, "feline".toList), ("dog".toList, "canine".toList)],
        [("cat".toList, 0), ("dog".toList, 0)]⟩ 1 pickZero
        (constAnswer ("canine".toList))
      = some (⟨[("cat".toList, "feline".toList), ("dog".toList, "canine".toList)],
           [("cat".toList, 1), ("dog".toList, 0)]⟩, 1) := by decide

/-- C7: asking performs zero quiz interactions and returns the store
unchanged when the store is empty, and a non-positive `n` (negative
included) yields zero iterations rather than an error, matching
`range(n)`. -/
theorem C7_empty_store_or_nonpositive_n :
    (∀ (s : State) (n : Int) (pick : Nat → Nat) (answer : Nat → Str),
      s.cards = [] → ask_card s n pick answer = some (s, 0)) ∧
    (∀ (s : State) (n : Int) (pick : Nat → Nat) (answer : Nat → Str),
      n ≤ 0 → ask_card s n pick answer = some (s, 0)) := by
  constructor
  · intro s n pick answer h
    have hk : keysOf s.cards = [] := by rw [h]; rfl
    simp [ask_card, hk]
  · intro s n pick answer h
    by_cases hk : keysOf s.cards = []
    · simp [ask_card, hk]
    · simp [ask_card, hk, Int.toNat_of_nonpos h, askLoop]

theorem C7_witness :
    ask_card initState 5 pickZero (constAnswer []) = some (initState, 0) ∧
    ask_card ⟨[("a".toList, "b".toList)], [("a".toList, 0)]⟩ (-1) pickZero
        (constAnswer []) = some (⟨[("a".toList, "b".toList)], [("a".toList, 0)]⟩, 0) :=
  ⟨C7_empty_store_or_nonpositive_n.1 initState 5 pickZero (constAnswer [])
      (by decide),
   C7_empty_store_or_nonpositive_n.2 ⟨[("a".toList, "b".toList)], [("a".toList, 0)]⟩
      (-1) pickZero (constAnswer []) (by decide)⟩

/-- C8: a missing import file is recoverable: the outcome is the caught,
reported `FileNotFoundError` case ("File not found."), never a crash, and it
carries the store exactly as it was — both mappings unchanged. -/
theorem C8_missing_import_file (s : State) :
    import_card s none = .fileNotFound s ∧
    stateOf (import_card s none) = s ∧
    (stateOf (import_card s none)).cards = s.cards ∧
    (stateOf (import_card s none)).error_counter = s.error_counter :=
  ⟨rfl, rfl, rfl, rfl⟩

/-- C9, counterexample: `add` performs no non-emptiness validation — adding
the empty term with the empty definition to the empty store succeeds, so a
reachable state stores an empty term and an empty definition. -/
theorem C9_counterexample :
    add_card initState [] [] = .ok ⟨[([], [])], [([], 0)]⟩ ∧
    ([] : Str) ∈ keysOf ((⟨[([], [])], [([], 0)]⟩ : State).cards) ∧
    ([] : Str) ∈ valuesOf ((⟨[([], [])], [([], 0)]⟩ : State).cards) := by decide

/-- C9, amended: `add` checks only the two uniqueness conditions; any term
and definition passing them — the empty string included — is stored
verbatim, so stored text is not guaranteed non-empty. -/
theorem C9_add_accepts_empty_text (s : State) (t d : Str)
    (h1 : dictGet t s.cards = none) (h2 : d ∉ valuesOf s.cards) :
    add_card s t d = .ok ⟨dictSet t d s.cards, dictSet t 0 s.error_counter⟩ ∧
    dictGet t (dictSet t d s.cards) = some d := by
  constructor
  · rw [add_card, if_neg (by simp [h1]), if_neg h2]
  · exact (dictGet_dictSet t t d s.cards).trans (if_pos rfl)

theorem C9_witness :
    add_card initState ([] : Str) ([] : Str)
      = .ok ⟨dictSet ([] : Str) ([] : Str) initState.cards,
             dictSet ([] : Str) 0 initState.error_counter⟩ ∧
    dictGet ([] : Str) (dictSet ([] : Str) ([] : Str) initState.cards)
      = some ([] : Str) :=
  C9_add_accepts_empty_text initState [] [] (by decide) (by decide)

/-- C10: the key set of the term→definition mapping stays included in the key
set of the term→error-count mapping under add, remove, import (in every
outcome, crashes included), quizzing and reset-stats; under that inclusion a
quiz run never hits a missing-key error on its error-count increment. -/
theorem C10_cards_keys_included_in_error_keys :
    (∀ (s s' : State) (t d : Str), invB s = true → add_card s t d = .ok s' →
      invB s' = true) ∧
    (∀ (s : State) (t : Str), invB s = true → invB (remove_card s t).1 = true) ∧
    (∀ (s : State) (f : Option (List Str)), invB s = true →
      invB (stateOf (import_card s f)) = true) ∧
    (∀ (s : State) (n : Int) (pick : Nat → Nat) (answer : Nat → Str),
      invB s = true → askInv s n pick answer = true) ∧
    (∀ s : State, invB s = true → invB (reset_stats s) = true) := by
  refine ⟨?_, ?_, ?_, ?_, ?_⟩
  · intro s s' t d h hadd
    obtain ⟨_, _, rfl⟩ := add_card_ok s t d s' hadd
    exact invB_dictSet s t d 0 h
  · intro s t h
    exact invB_remove s t h
  · intro s f h
    cases f with
    | none => exact h
    | some lines =>
      have hstate : stateOf (import_card s (some lines))
          = loopState (importLoop s lines) := by
        cases hil : importLoop s lines <;>
          simp [import_card, stateOf, loopState, hil]
      rw [hstate]
      exact importLoop_invB lines s h
  · intro s n pick answer h
    obtain ⟨s', c, hl, hi, _⟩ := ask_card_some s n pick answer h
    simp [askInv, hl, hi]
  · intro s h
    exact invB_reset s h

theorem C10_witness :
    invB ⟨[("a".toList, "b".toList)], [("a".toList, 0)]⟩ = true ∧
    invB (remove_card ⟨[("a".toList, "b".toList)], [("a".toList, 0)]⟩
        ("a".toList)).1 = true ∧
    invB (stateOf (import_card initState
        (some ["a".toList, "b".toList, "2".toList]))) = true ∧
    askInv ⟨[("a".toList, "b".toList)], [("a".toList, 0)]⟩ 2 pickZero
        (constAnswer ("x".toList)) = true ∧
    invB (reset_stats ⟨[("a".toList, "b".toList)], [("a".toList, 5)]⟩) = true :=
  ⟨C10_cards_keys_included_in_error_keys.1 initState
      ⟨[("a".toList, "b".toList)], [("a".toList, 0)]⟩ ("a".toList) ("b".toList)
      (by decide) (by decide),
   C10_cards_keys_included_in_error_keys.2.1
      ⟨[("a".toList, "b".toList)], [("a".toList, 0)]⟩ ("a".toList) (by decide),
   C10_cards_keys_included_in_error_keys.2.2.1 initState
      (some ["a".toList, "b".toList, "2".toList]) (by decide),
   C10_cards_keys_included_in_error_keys.2.2.2.1
      ⟨[("a".toList, "b".toList)], [("a".toList, 0)]⟩ 2 pickZero
      (constAnswer ("x".toList)) (by decide),
   C10_cards_keys_included_in_error_keys.2.2.2.2
      ⟨[("a".toList, "b".toList)], [("a".toList, 5)]⟩ (by decide)⟩

end Flashcards
